import Mathlib

/-!
Verification of the `vedit` editing core (`src/editor.rs`) against its
natural-language specification.

Modelling conventions:
* A Rust `String` holding one buffer line is modelled as a `List Char`
  (`RLine`).  Byte offsets into the UTF-8 representation are modelled via
  `Char.utf8Size`; a byte offset is converted back to a character position
  with `byteToCharIdx`, which agrees with Rust exactly on offsets that lie
  on character boundaries (the only offsets the editor ever produces, see
  the theorem for claim C10).  On a non-boundary offset Rust panics while
  the model rounds down to the enclosing character; no theorem below
  exercises such an offset.
* The display width of a character (crate `unicode_width`) is kept abstract
  as a parameter `w : CharWidth`; concrete evaluations use `asciiW`
  (every character one column wide), which agrees with `unicode_width`
  on the ASCII inputs used in them.  A line's display width is the sum of
  its characters' widths.
* Rust `str::to_lowercase` is modelled per character by `Char.toLower`,
  which agrees with it on ASCII input; every case-insensitive concrete
  input below is ASCII.
* Rust `str::find` returns the byte offset of the first occurrence of a
  needle.  Because UTF-8 is self-synchronizing, a valid needle can only
  occur at character boundaries, so the byte-level search equals the
  character-level scan `rustFindBytes` below.
* Loops whose counters are not structurally decreasing (`compute_diff`,
  the scan loops of `find_matches_in_line` and `replace_all_instances`)
  are written with an explicit fuel argument that is, at every call site,
  at least the number of iterations the Rust loop performs on the inputs
  our theorems evaluate.
* Rendering-only state (scroll position, viewport size, focus, command
  line, prompts, AI plumbing) is outside the model; `scroll()` touches
  only that state and is therefore dropped.
-/

namespace VEdit

/-- A Rust `String` holding one line of the buffer, as its character list. -/
abbrev RLine := List Char

/-- Abstract display-width table for characters (crate `unicode_width`). -/
abbrev CharWidth := Char → Nat

/-- ASCII width table: every character one column wide.  Agrees with
`unicode_width` on the printable-ASCII inputs of the concrete theorems. -/
def asciiW : CharWidth := fun _ => 1

/-- Character list of a string literal, for readable concrete inputs. -/
def strL (s : String) : RLine := s.data

/-- Byte length of the UTF-8 encoding of a line (`str::len`). -/
def utf8Len (l : RLine) : Nat := (l.map Char.utf8Size).sum

/-- Display width of a line (`UnicodeWidthStr::width`), as the sum of the
widths of its characters. -/
def lineWidth (w : CharWidth) (l : RLine) : Nat := (l.map w).sum

/-- Number of characters of `l` that lie entirely before byte offset `b`.
On a character boundary this is the exact character position of the byte
offset, which is how Rust code indexing at that offset behaves. -/
def byteToCharIdx : RLine → Nat → Nat
  | [], _ => 0
  | c :: rest, b => if b < c.utf8Size then 0 else byteToCharIdx rest (b - c.utf8Size) + 1

/-- The slice `l[a..b]` of a Rust string by byte offsets. -/
def byteSlice (l : RLine) (a b : Nat) : RLine :=
  (l.take (byteToCharIdx l b)).drop (byteToCharIdx l a)

/-- The suffix slice `l[a..]` of a Rust string by byte offset. -/
def byteDrop (l : RLine) (a : Nat) : RLine :=
  l.drop (byteToCharIdx l a)

/-- Rust `String::remove(b)`: delete the character starting at byte offset `b`. -/
def removeAtByte (l : RLine) (b : Nat) : RLine :=
  l.eraseIdx (byteToCharIdx l b)

/-- Rust `String::insert(b, c)`: insert `c` at byte offset `b`. -/
def insertAtByte (l : RLine) (b : Nat) (c : Char) : RLine :=
  l.insertIdx (byteToCharIdx l b) c

/-- Rust `String::replace_range(a..b, repl)`. -/
def byteReplaceRange (l : RLine) (a b : Nat) (repl : RLine) : RLine :=
  l.take (byteToCharIdx l a) ++ repl ++ l.drop (byteToCharIdx l b)

/-- Loop body of `column_to_byte_index` (editor.rs:31-40): walk the
characters accumulating display width `cw` and byte offset `bi`; stop at
the first character where the accumulated width reaches `column`. -/
def columnToByteIndexGo (w : CharWidth) (column : Nat) : RLine → Nat → Nat → Nat
  | [], _, bi => bi
  | c :: rest, cw, bi =>
    if column ≤ cw then bi
    else columnToByteIndexGo w column rest (cw + w c) (bi + c.utf8Size)

/-- `column_to_byte_index` (editor.rs:31-40): byte offset of the display
column `column` in `line`, or the byte length of `line` when the column is
past the end. -/
def columnToByteIndex (w : CharWidth) (line : RLine) (column : Nat) : Nat :=
  columnToByteIndexGo w column line 0 0

/-- Model of `str::to_lowercase` (exact on ASCII). -/
def toLowerLine (l : RLine) : RLine := l.map Char.toLower

/-- Whether `needle` occurs at the very start of `hay`. -/
def listStartsWith : RLine → RLine → Bool
  | [], _ => true
  | _ :: _, [] => false
  | a :: as', b :: bs' => a = b && listStartsWith as' bs'

/-- Rust `str::find(needle)`: byte offset of the first occurrence of
`needle` in `hay`, if any. -/
def rustFindBytes (hay needle : RLine) : Option Nat :=
  if listStartsWith needle hay then some 0
  else
    match hay with
    | [] => none
    | c :: rest => (rustFindBytes rest needle).map (· + c.utf8Size)

/-- Lexicographic comparison of character lists; equals Rust `str::cmp`
because UTF-8 byte order coincides with code-point order. -/
def compareLines : RLine → RLine → Ordering
  | [], [] => .eq
  | [], _ :: _ => .lt
  | _ :: _, [] => .gt
  | a :: as', b :: bs' =>
    match compare a b with
    | .eq => compareLines as' bs'
    | o => o

/-- `SelectionMode` (editor.rs:24-29). -/
inductive SelectionMode where
  | none
  | line
  | block
deriving DecidableEq

/-- `SearchScope` (editor.rs:88-93). -/
inductive SearchScope where
  | all
  | line
  | block
deriving DecidableEq

/-- `DiffLine` (editor.rs:95-100). -/
inductive DiffLine where
  | context (s : RLine)
  | added (s : RLine)
  | removed (s : RLine)
deriving DecidableEq

/-- `Hunk` (editor.rs:102-110). -/
structure Hunk where
  oldStart : Nat
  oldLines : Nat
  newStart : Nat
  newLines : Nat
  lines : List DiffLine
  accepted : Bool
deriving DecidableEq

/-- `DiffMode` (editor.rs:112-122). -/
inductive DiffMode where
  | inactive
  | active (originalBuffer : List RLine) (modifiedBuffer : List RLine)
      (hunks : List Hunk) (currentHunk : Nat) (acceptAll : Bool)
deriving DecidableEq

/-- The editor session state (editor.rs:42-86), restricted to the fields the
editing core reads or writes.  Rendering-only fields (scroll position,
viewport size, focus, command line, prompts, saved original-document state,
AI plumbing) are omitted; `scroll()` touches only those and is dropped. -/
structure Editor where
  buffer : List RLine
  cursorX : Nat
  cursorY : Nat
  overwriteMode : Bool
  modified : Bool
  readOnly : Bool
  selectionStart : Option (Nat × Nat)
  selectionEnd : Option (Nat × Nat)
  selectionMode : SelectionMode
  virtualCursor : Bool
  undoHistory : List (List RLine)
  undoIndex : Nat
  lastSaveState : Option (List RLine)
  searchTarget : Option RLine
  searchScope : SearchScope
  searchCaseSensitive : Bool
  searchMatches : List (Nat × Nat × Nat)
  currentMatchIndex : Nat
  matchesInLastLine : Nat
  replaceText : Option RLine
  replaceAll : Bool
  diffMode : DiffMode
deriving DecidableEq

/-- `Editor::new` (editor.rs:125-177), taking the already-split line list
(`contents.lines()`) and the config's virtual-cursor flag. -/
def mkEditor (vcur : Bool) (lines : List RLine) : Editor :=
  let buffer := if lines = [] then [[]] else lines
  { buffer := buffer
    cursorX := 0
    cursorY := 0
    overwriteMode := true
    modified := false
    readOnly := false
    selectionStart := none
    selectionEnd := none
    selectionMode := .none
    virtualCursor := vcur
    undoHistory := [buffer]
    undoIndex := 0
    lastSaveState := some buffer
    searchTarget := none
    searchScope := .all
    searchCaseSensitive := true
    searchMatches := []
    currentMatchIndex := 0
    matchesInLastLine := 0
    replaceText := none
    replaceAll := false
    diffMode := .inactive }

/-- `save_state` (editor.rs:602-614): truncate any redo tail, push the
current buffer, advance the pointer. -/
def saveState (e : Editor) : Editor :=
  let hist :=
    if e.undoIndex < e.undoHistory.length - 1 then e.undoHistory.take (e.undoIndex + 1)
    else e.undoHistory
  { e with undoHistory := hist ++ [e.buffer], undoIndex := e.undoIndex + 1 }

/-- `mark_as_saved` (editor.rs:616-619). -/
def markAsSaved (e : Editor) : Editor :=
  { e with lastSaveState := some e.buffer, modified := false }

/-- `undo` (editor.rs:621-645). -/
def undo (w : CharWidth) (e : Editor) : Editor × Bool :=
  if e.undoIndex = 0 then (e, false)
  else
    let idx := e.undoIndex - 1
    let buf := e.undoHistory.getD idx []
    let cy := min e.cursorY (buf.length - 1)
    let lw := lineWidth w (buf.getD cy [])
    let cx := min e.cursorX lw
    let md :=
      match e.lastSaveState with
      | some s => decide (buf ≠ s)
      | none => true
    ({ e with
        undoIndex := idx
        buffer := buf
        cursorY := cy
        cursorX := cx
        modified := md }, true)

/-- `redo` (editor.rs:647-671). -/
def redo (w : CharWidth) (e : Editor) : Editor × Bool :=
  if e.undoHistory.length - 1 ≤ e.undoIndex then (e, false)
  else
    let idx := e.undoIndex + 1
    let buf := e.undoHistory.getD idx []
    let cy := min e.cursorY (buf.length - 1)
    let lw := lineWidth w (buf.getD cy [])
    let cx := min e.cursorX lw
    let md :=
      match e.lastSaveState with
      | some s => decide (buf ≠ s)
      | none => true
    ({ e with
        undoIndex := idx
        buffer := buf
        cursorY := cy
        cursorX := cx
        modified := md }, true)

/-- `type_char` (editor.rs:218-246). -/
def typeChar (w : CharWidth) (e : Editor) (c : Char) : Editor :=
  if e.readOnly then e
  else
    let e := saveState e
    let line := e.buffer.getD e.cursorY []
    let lw := lineWidth w line
    let line :=
      if e.virtualCursor ∧ lw < e.cursorX then line ++ List.replicate (e.cursorX - lw) ' '
      else line
    let b := columnToByteIndex w line e.cursorX
    let cw := w c
    let line' :=
      if e.overwriteMode then
        if b < utf8Len line then insertAtByte (removeAtByte line b) b c
        else line ++ [c]
      else insertAtByte line b c
    { e with
        buffer := e.buffer.set e.cursorY line'
        modified := true
        cursorX := e.cursorX + cw }

/-- `delete_char` (editor.rs:248-268). -/
def deleteChar (w : CharWidth) (e : Editor) : Editor :=
  if e.readOnly then e
  else
    let e := saveState e
    let line := e.buffer.getD e.cursorY []
    let lw := lineWidth w line
    if e.virtualCursor ∧ lw ≤ e.cursorX then e
    else
      let b := columnToByteIndex w line e.cursorX
      if b < utf8Len line then
        { e with buffer := e.buffer.set e.cursorY (removeAtByte line b), modified := true }
      else if e.cursorY < e.buffer.length - 1 then
        let next := e.buffer.getD (e.cursorY + 1) []
        { e with
            buffer := (e.buffer.eraseIdx (e.cursorY + 1)).set e.cursorY (line ++ next)
            modified := true }
      else { e with modified := true }

/-- Loop of `backspace` locating the character just before byte offset `b`
(editor.rs:287-295): the last `(byte_index, char)` pair with index below
`b`, starting from `(0, ' ')`. -/
def lastCharBefore (b : Nat) : RLine → Nat → Nat × Char → Nat × Char
  | [], _, acc => acc
  | c :: rest, idx, acc =>
    if b ≤ idx then acc else lastCharBefore b rest (idx + c.utf8Size) (idx, c)

/-- `backspace` (editor.rs:270-308). -/
def backspace (w : CharWidth) (e : Editor) : Editor :=
  if e.readOnly then e
  else
    let e := saveState e
    let line := e.buffer.getD e.cursorY []
    let lw := lineWidth w line
    if e.virtualCursor ∧ lw < e.cursorX then e
    else if 0 < e.cursorX then
      let b := columnToByteIndex w line e.cursorX
      if 0 < b then
        let pc := lastCharBefore b line 0 (0, ' ')
        { e with
            buffer := e.buffer.set e.cursorY (removeAtByte line pc.1)
            cursorX := e.cursorX - w pc.2
            modified := true }
      else { e with modified := true }
    else if 0 < e.cursorY then
      let prevW := lineWidth w (e.buffer.getD (e.cursorY - 1) [])
      let current := e.buffer.getD e.cursorY []
      let buf := e.buffer.eraseIdx e.cursorY
      { e with
          buffer := buf.set (e.cursorY - 1) ((buf.getD (e.cursorY - 1) []) ++ current)
          cursorY := e.cursorY - 1
          cursorX := prevW
          modified := true }
    else { e with modified := true }

/-- `insert_newline` (editor.rs:314-328). -/
def insertNewline (w : CharWidth) (e : Editor) : Editor :=
  if e.readOnly then e
  else
    let e := saveState e
    let line := e.buffer.getD e.cursorY []
    let b := columnToByteIndex w line e.cursorX
    let rest := line.drop (byteToCharIdx line b)
    let kept := line.take (byteToCharIdx line b)
    { e with
        buffer := (e.buffer.set e.cursorY kept).insertIdx (e.cursorY + 1) rest
        cursorY := e.cursorY + 1
        cursorX := 0
        modified := true }

/-- `deselect` (editor.rs:424-428). -/
def deselect (e : Editor) : Editor :=
  { e with
      selectionStart := none
      selectionEnd := none
      selectionMode := .none }

/-- Row loop shared by the selection operations: apply `f` to each row index
in `[minY, maxY]` that is inside the buffer. -/
def overRows (minY maxY : Nat) (f : Nat → List RLine → List RLine)
    (buffer : List RLine) : List RLine :=
  (List.range' minY (maxY + 1 - minY)).foldl
    (fun buf y => if y < buf.length then f y buf else buf) buffer

/-- `fill_selection` (editor.rs:384-422).  Note that it does not consult the
`read_only` flag. -/
def fillSelection (w : CharWidth) (e : Editor) (fillChar : Char) : Editor :=
  match e.selectionStart, e.selectionEnd with
  | some s, some en =>
    let e := saveState e
    let e :=
      match e.selectionMode with
      | .line =>
        let minY := min s.1 en.1
        let maxY := max s.1 en.1
        let fillLen := max s.2 en.2
        let buf' :=
          overRows minY maxY (fun y buf => buf.set y (List.replicate fillLen fillChar))
            e.buffer
        { e with buffer := buf' }
      | .block =>
        let minY := min s.1 en.1
        let maxY := max s.1 en.1
        let minX := min s.2 en.2
        let maxX := max s.2 en.2
        let endCol := maxX + 1
        let fillLen := endCol - minX
        let buf' :=
          overRows minY maxY
            (fun y buf =>
              let line := buf.getD y []
              let sb := columnToByteIndex w line minX
              let eb := columnToByteIndex w line endCol
              buf.set y (byteReplaceRange line sb eb (List.replicate fillLen fillChar)))
            e.buffer
        { e with buffer := buf' }
      | .none => e
    deselect { e with modified := true }
  | _, _ => e

/-- `move_block_right` (editor.rs:430-466).  Note that it does not consult
the `read_only` flag. -/
def moveBlockRight (w : CharWidth) (e : Editor) : Editor :=
  match e.selectionStart, e.selectionEnd with
  | some s, some en =>
    let e := saveState e
    let minY := min s.1 en.1
    let maxY := max s.1 en.1
    let minX := min s.2 en.2
    let maxX := max s.2 en.2
    let buf' :=
      overRows minY maxY
        (fun y buf =>
          let line := buf.getD y []
          if e.overwriteMode then
            if e.selectionMode = .block then
              if maxX + 1 < lineWidth w line then
                let line1 := removeAtByte line (columnToByteIndex w line (maxX + 1))
                buf.set y (insertAtByte line1 (columnToByteIndex w line1 minX) ' ')
              else buf
            else
              if line ≠ [] then buf.set y (removeAtByte line 0 ++ [' ']) else buf
          else
            buf.set y (insertAtByte line (columnToByteIndex w line minX) ' '))
        e.buffer
    let newMinX := if e.overwriteMode then minX + 1 else minX
    let newMaxX := if e.overwriteMode then maxX + 1 else maxX
    { e with
        buffer := buf'
        selectionStart := some (minY, newMinX)
        selectionEnd := some (maxY, newMaxX)
        modified := true }
  | _, _ => e

/-- `move_block_left` (editor.rs:468-506).  In insert mode the source tests
`line.chars().nth(min_x)`, a character index, against the display column
`min_x`; the model does the same.  It does not consult `read_only`. -/
def moveBlockLeft (w : CharWidth) (e : Editor) : Editor :=
  match e.selectionStart, e.selectionEnd with
  | some s, some en =>
    let e := saveState e
    let minY := min s.1 en.1
    let maxY := max s.1 en.1
    let minX := min s.2 en.2
    let maxX := max s.2 en.2
    let buf' :=
      overRows minY maxY
        (fun y buf =>
          let line := buf.getD y []
          if e.overwriteMode then
            if e.selectionMode = .block then
              if 0 < minX then
                let line1 := removeAtByte line (columnToByteIndex w line (minX - 1))
                buf.set y (insertAtByte line1 (columnToByteIndex w line1 maxX) ' ')
              else buf
            else
              if line ≠ [] then buf.set y (insertAtByte line.dropLast 0 ' ') else buf
          else
            if minX < lineWidth w line ∧ line.get? minX = some ' ' then
              buf.set y (removeAtByte line (columnToByteIndex w line minX))
            else buf)
        e.buffer
    let newMinX := if e.overwriteMode ∧ 0 < minX then minX - 1 else minX
    let newMaxX := if e.overwriteMode ∧ 0 < maxX then maxX - 1 else maxX
    { e with
        buffer := buf'
        selectionStart := some (minY, newMinX)
        selectionEnd := some (maxY, newMaxX)
        modified := true }
  | _, _ => e

/-- `extract_sort_key` (editor.rs:848-874).  When `start_col` exceeds the
line's width the source prepends `start_col` spaces to the line; otherwise
it slices between the byte offsets of `start_col` and
`min end_col (width line)`. -/
def extractSortKey (w : CharWidth) (line : RLine) (startCol endCol : Nat) : RLine :=
  let lw := lineWidth w line
  let expanded := if lw < startCol then List.replicate startCol ' ' ++ line else line
  let ew := lineWidth w expanded
  let actualEnd := min endCol ew
  if ew ≤ startCol then []
  else
    let sb := columnToByteIndex w expanded startCol
    let eb := columnToByteIndex w expanded actualEnd
    if sb < utf8Len expanded then byteSlice expanded sb eb else []

/-- `extract_block_text` (editor.rs:876-909): like `extract_sort_key` but
padded with spaces to the requested width. -/
def extractBlockText (w : CharWidth) (line : RLine) (startCol endCol : Nat) : RLine :=
  let lw := lineWidth w line
  let expanded := if lw < startCol then List.replicate startCol ' ' ++ line else line
  let ew := lineWidth w expanded
  let actualEnd := min endCol ew
  if ew ≤ startCol then List.replicate (endCol - startCol) ' '
  else
    let sb := columnToByteIndex w expanded startCol
    let eb := columnToByteIndex w expanded actualEnd
    let result := if sb < utf8Len expanded then byteSlice expanded sb eb else []
    if lineWidth w result < endCol - startCol then
      result ++ List.replicate ((endCol - startCol) - lineWidth w result) ' '
    else result

/-- Scan loop of `find_matches_in_line` (editor.rs:996-1003): repeatedly
find the target from byte offset `start` and step to `abs_start + 1`.
The fuel bounds the number of iterations; the caller passes one more than
the line's byte length, which is enough for every non-empty target because
the scan offset strictly increases. -/
def findMatchesGo (searchLine searchTarget : RLine) (lineIdx : Nat) :
    Nat → Nat → List (Nat × Nat × Nat)
  | 0, _ => []
  | fuel + 1, start =>
    match rustFindBytes (byteDrop searchLine start) searchTarget with
    | none => []
    | some pos =>
      let absStart := start + pos
      (lineIdx, absStart, absStart + utf8Len searchTarget) ::
        findMatchesGo searchLine searchTarget lineIdx fuel (absStart + 1)

/-- `find_matches_in_line` (editor.rs:983-1004): all matches of the target
in one line, as `(line, startByte, endByte)` triples.  The source also sets
`matches_in_last_line` to the number found, which callers below read off as
the length of this list. -/
def findMatchesInLine (target : RLine) (cs : Bool) (line : RLine) (lineIdx : Nat) :
    List (Nat × Nat × Nat) :=
  let searchLine := if cs then line else toLowerLine line
  let searchTarget := if cs then target else toLowerLine target
  findMatchesGo searchLine searchTarget lineIdx (utf8Len searchLine + 1) 0

/-- `find_first_match_in_line` (editor.rs:1006-1025). -/
def findFirstMatchInLine (target : RLine) (cs : Bool) (line : RLine) : Option (Nat × Nat) :=
  let searchLine := if cs then line else toLowerLine line
  let searchTarget := if cs then target else toLowerLine target
  (rustFindBytes searchLine searchTarget).map (fun pos => (pos, pos + utf8Len searchTarget))

/-- `move_to_match` (editor.rs:1027-1034). -/
def moveToMatch (e : Editor) (matchIndex : Nat) : Editor :=
  if matchIndex < e.searchMatches.length then
    let m := e.searchMatches.getD matchIndex (0, 0, 0)
    { e with cursorY := m.1, cursorX := m.2.1 }
  else e

/-- All-scope scan (editor.rs:924-929): every match of every line, in line
order, together with the final value of `matches_in_last_line`. -/
def allScopeScan (target : RLine) (cs : Bool) (buffer : List RLine) (initCount : Nat) :
    List (Nat × Nat × Nat) × Nat :=
  buffer.enum.foldl
    (fun acc p =>
      let ms := findMatchesInLine target cs p.2 p.1
      (acc.1 ++ ms, ms.length))
    ([], initCount)

/-- Block-scope scan (editor.rs:938-961): matches inside the rectangle's
block text per selected row, columns shifted by `min_x` back to absolute
coordinates. -/
def blockScopeScan (w : CharWidth) (target : RLine) (cs : Bool) (buffer : List RLine)
    (minY maxY minX maxX : Nat) (initCount : Nat) : List (Nat × Nat × Nat) × Nat :=
  (List.range' minY (maxY + 1 - minY)).foldl
    (fun acc idx =>
      if idx < buffer.length then
        let line := buffer.getD idx []
        let ms := findMatchesInLine target cs (extractBlockText w line minX (maxX + 1)) idx
        (acc.1 ++ ms.map (fun m => (m.1, m.2.1 + minX, m.2.2 + minX)), ms.length)
      else acc)
    ([], initCount)

/-- Line-scope scan of `find` (editor.rs:930-937): stops at the first line
that has a match — the `break` in the source exits the whole buffer loop. -/
def findLineScopeScan (target : RLine) (cs : Bool) : List RLine → Nat → List (Nat × Nat × Nat)
  | [], _ => []
  | l :: rest, i =>
    match findFirstMatchInLine target cs l with
    | some m => [(i, m.1, m.2)]
    | none => findLineScopeScan target cs rest (i + 1)

/-- Tail of `find` (editor.rs:964-970): move to the first match if any. -/
def finishFind (e : Editor) : Editor × Bool :=
  if e.searchMatches = [] then (e, false) else (moveToMatch e 0, true)

/-- `find` (editor.rs:911-971). -/
def findOp (w : CharWidth) (e : Editor) (target : RLine) (scope : SearchScope) (cs : Bool) :
    Editor × Bool :=
  if target = [] then (e, false)
  else
    let e1 := { e with
        searchTarget := some target
        searchScope := scope
        searchCaseSensitive := cs
        searchMatches := []
        currentMatchIndex := 0 }
    match scope with
    | .all =>
      let r := allScopeScan target cs e1.buffer e1.matchesInLastLine
      finishFind { e1 with searchMatches := r.1, matchesInLastLine := r.2 }
    | .line =>
      finishFind { e1 with searchMatches := findLineScopeScan target cs e1.buffer 0 }
    | .block =>
      match e1.selectionStart, e1.selectionEnd with
      | some s, some en =>
        let r := blockScopeScan w target cs e1.buffer (min s.1 en.1) (max s.1 en.1)
          (min s.2 en.2) (max s.2 en.2) e1.matchesInLastLine
        finishFind { e1 with searchMatches := r.1, matchesInLastLine := r.2 }
      | _, _ => (e1, false)

/-- Per-line loop of `replace_all_instances` (editor.rs:1199-1230).  Note
the source passes the byte offsets `abs_pos`/`end_pos` to
`column_to_byte_index`, which expects display columns; the model does the
same.  The fuel bounds the iterations, amply for the evaluated inputs. -/
def replaceAllLineGo (w : CharWidth) (findText replText searchTarget : RLine) (cs : Bool) :
    Nat → RLine → RLine → Nat → RLine
  | 0, _, resultLine, _ => resultLine
  | fuel + 1, searchLine, resultLine, offset =>
    match rustFindBytes (byteDrop searchLine offset) searchTarget with
    | none => resultLine
    | some pos =>
      let absPos := offset + pos
      let endPos := absPos + utf8Len findText
      let sb := columnToByteIndex w resultLine absPos
      let eb := columnToByteIndex w resultLine endPos
      let resultLine' := byteReplaceRange resultLine sb eb replText
      let searchLine' := if cs then resultLine' else toLowerLine resultLine'
      replaceAllLineGo w findText replText searchTarget cs fuel searchLine' resultLine'
        (absPos + utf8Len replText)

/-- One line of `replace_all_instances` (editor.rs:1192-1233). -/
def replaceAllLine (w : CharWidth) (findText replText : RLine) (cs : Bool) (line : RLine) :
    RLine :=
  let searchTarget := if cs then findText else toLowerLine findText
  let searchLine := if cs then line else toLowerLine line
  replaceAllLineGo w findText replText searchTarget cs
    ((utf8Len line + 1) * (utf8Len replText + 2)) searchLine line 0

/-- `replace_all_instances` (editor.rs:1192-1233): rewrites every line of
the whole buffer, regardless of the scope the matches were collected in. -/
def replaceAllInstances (w : CharWidth) (e : Editor) (findText replText : RLine) (cs : Bool) :
    Editor :=
  { e with buffer := e.buffer.map (replaceAllLine w findText replText cs), modified := true }

/-- Line-scope scan of `replace` (editor.rs:1073-1079): first match of
every line, no early exit. -/
def replaceLineScopeScan (target : RLine) (cs : Bool) (buffer : List RLine) :
    List (Nat × Nat × Nat) :=
  buffer.enum.foldl
    (fun acc p =>
      match findFirstMatchInLine target cs p.2 with
      | some m => acc ++ [(p.1, m.1, m.2)]
      | none => acc) []

/-- Tail of `replace` (editor.rs:1106-1121): fail on an empty match list,
otherwise rewrite everything or stage single-step mode. -/
def replaceCont (w : CharWidth) (e : Editor) (findText replText : RLine)
    (replaceAllFlag cs : Bool) : Editor × Bool :=
  if e.searchMatches = [] then (e, false)
  else if replaceAllFlag then (replaceAllInstances w e findText replText cs, true)
  else
    (moveToMatch { e with replaceText := some replText, replaceAll := false } 0, true)

/-- `replace` (editor.rs:1050-1122). -/
def replaceOp (w : CharWidth) (e : Editor) (findText replText : RLine) (scope : SearchScope)
    (replaceAllFlag cs : Bool) : Editor × Bool :=
  if findText = [] then (e, false)
  else
    let e1 := saveState e
    let e2 := { e1 with
        searchTarget := some findText
        searchScope := scope
        searchCaseSensitive := cs
        searchMatches := []
        currentMatchIndex := 0 }
    match scope with
    | .all =>
      let r := allScopeScan findText cs e2.buffer e2.matchesInLastLine
      replaceCont w { e2 with searchMatches := r.1, matchesInLastLine := r.2 }
        findText replText replaceAllFlag cs
    | .line =>
      replaceCont w { e2 with searchMatches := replaceLineScopeScan findText cs e2.buffer }
        findText replText replaceAllFlag cs
    | .block =>
      match e2.selectionStart, e2.selectionEnd with
      | some s, some en =>
        let r := blockScopeScan w findText cs e2.buffer (min s.1 en.1) (max s.1 en.1)
          (min s.2 en.2) (max s.2 en.2) e2.matchesInLastLine
        replaceCont w { e2 with searchMatches := r.1, matchesInLastLine := r.2 }
          findText replText replaceAllFlag cs
      | _, _ => (e2, false)

/-- `perform_replace` (editor.rs:1235-1263): range-replace the match span;
when the replacement is narrower, additionally pull the following text
left by removing the leftover columns. -/
def performReplace (w : CharWidth) (e : Editor) (lineIdx startCol endCol : Nat)
    (replText : RLine) : Editor :=
  let line := e.buffer.getD lineIdx []
  let sb := columnToByteIndex w line startCol
  let eb := columnToByteIndex w line endCol
  let originalWidth := endCol - startCol
  let replaceWidth := lineWidth w replText
  let line' := byteReplaceRange line sb eb replText
  let line'' :=
    if replaceWidth < originalWidth then
      let currentEndByte := columnToByteIndex w line' (startCol + replaceWidth)
      let removeEndByte := columnToByteIndex w line' (startCol + originalWidth)
      if currentEndByte < removeEndByte then
        byteReplaceRange line' currentEndByte removeEndByte []
      else line'
    else line'
  { e with buffer := e.buffer.set lineIdx line'', modified := true }

/-- `replace_next` (editor.rs:1124-1190): substitute the current match,
then rebuild the match list for the staged scope and re-position.  The
source indexes `search_matches[current_match_index]` (in-bounds whenever
it is called with a freshly staged match list) and reads the staged
`search_target`; the model uses the zero defaults for the unreachable
out-of-range/none cases.  It does not consult `read_only`. -/
def replaceNext (w : CharWidth) (e : Editor) : Editor × Bool :=
  if e.searchMatches = [] ∨ e.replaceText = none then (e, false)
  else
    let e' :=
      match e.replaceText with
      | some replText =>
        let m := e.searchMatches.getD e.currentMatchIndex (0, 0, 0)
        let e1 := performReplace w e m.1 m.2.1 m.2.2 replText
        let target := e1.searchTarget.getD []
        let cs := e1.searchCaseSensitive
        let e2 := { e1 with searchMatches := [], currentMatchIndex := 0 }
        let e3 :=
          match e2.searchScope with
          | .all =>
            let r := allScopeScan target cs e2.buffer e2.matchesInLastLine
            { e2 with searchMatches := r.1, matchesInLastLine := r.2 }
          | .line =>
            { e2 with searchMatches := replaceLineScopeScan target cs e2.buffer }
          | .block =>
            match e2.selectionStart, e2.selectionEnd with
            | some s, some en =>
              let r := blockScopeScan w target cs e2.buffer (min s.1 en.1) (max s.1 en.1)
                (min s.2 en.2) (max s.2 en.2) e2.matchesInLastLine
              { e2 with searchMatches := r.1, matchesInLastLine := r.2 }
            | _, _ => e2
        if e3.searchMatches = [] then e3 else moveToMatch e3 e3.currentMatchIndex
      | none => e
    (e', true)

/-- Stable insertion into a sorted list: the new element (which comes
earlier in the original list) is placed before every element it compares
less-or-equal to. -/
def insertSorted (le : α → α → Bool) (x : α) : List α → List α
  | [] => [x]
  | y :: ys => if le x y then x :: y :: ys else y :: insertSorted le x ys

/-- Stable sort; models Rust's stable `sort_by` (for a total preorder the
stable sorted permutation is unique, so any stable sort realizes it). -/
def insertionSort (le : α → α → Bool) : List α → List α
  | [] => []
  | x :: xs => insertSorted le x (insertionSort le xs)

/-- The multi-key comparator of `sort_all`/`sort_block` (editor.rs:707-723):
first non-equal key decides, `asc` flips the comparison. -/
def multiKeyCmp : List (Nat × Nat × Bool) → List RLine → List RLine → Ordering
  | [], _, _ => .eq
  | sp :: rest, ka, kb =>
    let a := ka.headD []
    let b := kb.headD []
    let c := if sp.2.2 then compareLines a b else compareLines b a
    match c with
    | .eq => multiKeyCmp rest ka.tail kb.tail
    | o => o

/-- `sort_all` (editor.rs:686-732). -/
def sortAll (w : CharWidth) (e : Editor) (sortSpecs : List (Nat × Nat × Bool)) :
    Editor × Bool :=
  if e.buffer = [] then (e, false)
  else
    let e1 := saveState e
    let indexed := e1.buffer.map
      (fun line => (line, sortSpecs.map (fun sp => extractSortKey w line sp.1 sp.2.1)))
    let sorted := insertionSort (fun a b => (multiKeyCmp sortSpecs a.2 b.2).isLE) indexed
    ({ e1 with buffer := sorted.map (fun p => p.1), modified := true }, true)

/-- Rows `min_y..=max_y` of the buffer that actually exist. -/
def collectRows (minY maxY : Nat) (buffer : List RLine) : List RLine :=
  (List.range' minY (maxY + 1 - minY)).filterMap
    (fun y => if y < buffer.length then some (buffer.getD y []) else none)

/-- Write sorted whole lines back at `min_y + i` (editor.rs:779-781). -/
def writeRows (minY : Nat) (rows : List RLine) (buffer : List RLine) : List RLine :=
  rows.enum.foldl (fun buf p => buf.set (minY + p.1) p.2) buffer

/-- Write sorted block texts back into the column range per row
(editor.rs:828-836). -/
def writeBlockRows (w : CharWidth) (minY minX endCol : Nat) (rows : List RLine)
    (buffer : List RLine) : List RLine :=
  rows.enum.foldl
    (fun buf p =>
      let y := minY + p.1
      if y < buf.length then
        let line := buf.getD y []
        let sb := columnToByteIndex w line minX
        let eb := columnToByteIndex w line endCol
        buf.set y (byteReplaceRange line sb eb p.2)
      else buf)
    buffer

/-- `sort_block` (editor.rs:734-846). -/
def sortBlock (w : CharWidth) (e : Editor) (sortSpecs : List (Nat × Nat × Bool)) :
    Editor × Bool :=
  match e.selectionStart, e.selectionEnd with
  | some s, some en =>
    let e1 := saveState e
    let minY := min s.1 en.1
    let maxY := max s.1 en.1
    match e1.selectionMode with
    | .line =>
      let rows := collectRows minY maxY e1.buffer
      let indexed := rows.map
        (fun line => (line, sortSpecs.map (fun sp => extractSortKey w line sp.1 sp.2.1)))
      let sorted := insertionSort (fun a b => (multiKeyCmp sortSpecs a.2 b.2).isLE) indexed
      ({ e1 with
          buffer := writeRows minY (sorted.map (fun p => p.1)) e1.buffer
          modified := true }, true)
    | .block =>
      let minX := min s.2 en.2
      let maxX := max s.2 en.2
      let endCol := maxX + 1
      let rows := collectRows minY maxY e1.buffer
      let blocks := rows.map (fun line =>
        let blockText := extractBlockText w line minX endCol
        (blockText, sortSpecs.map (fun sp =>
          let adjStart := if minX ≤ sp.1 then sp.1 - minX else 0
          let adjEnd := if minX ≤ sp.2.1 then sp.2.1 - minX else 0
          extractSortKey w blockText adjStart adjEnd)))
      let sorted := insertionSort (fun a b => (multiKeyCmp sortSpecs a.2 b.2).isLE) blocks
      ({ e1 with
          buffer := writeBlockRows w minY minX endCol (sorted.map (fun p => p.1)) e1.buffer
          modified := true }, true)
    | .none => (e1, false)
  | _, _ => (e, false)

/-- The greedy one-pass line synchronization of `compute_diff`
(editor.rs:1451-1510).  The fuel bounds the loop iterations; every
iteration consumes at least one line from one of the two sides, so
`|original| + |modified| + 1` iterations always suffice and the
fuel-exhausted branch is unreachable from `computeDiff`. -/
def computeDiffGo :
    Nat → List RLine → List RLine → Nat → Nat → Bool → Nat → Nat →
      List DiffLine → List Hunk → List Hunk
  | 0, _, _, _, _, _, _, _, _, acc => acc
  | fuel + 1, os, ms, i, j, inHunk, hso, hsm, cur, acc =>
    match os, ms with
    | [], [] =>
      if inHunk then acc ++ [⟨hso, i - hso, hsm, j - hsm, cur, false⟩] else acc
    | a :: os', b :: ms' =>
      if a = b then
        let acc' := if inHunk then acc ++ [⟨hso, i - hso, hsm, j - hsm, cur, false⟩] else acc
        computeDiffGo fuel os' ms' (i + 1) (j + 1) false hso hsm [] acc'
      else
        let hso' := if inHunk then hso else i
        let hsm' := if inHunk then hsm else j
        match os' with
        | [] =>
          computeDiffGo fuel [] ms' (i + 1) (j + 1) true hso' hsm'
            (cur ++ [.removed a, .added b]) acc
        | a' :: _ =>
          if a' = b then
            computeDiffGo fuel os' ms (i + 1) j true hso' hsm' (cur ++ [.removed a]) acc
          else
            computeDiffGo fuel os' ms' (i + 1) (j + 1) true hso' hsm'
              (cur ++ [.removed a, .added b]) acc
    | a :: os', [] =>
      let hso' := if inHunk then hso else i
      let hsm' := if inHunk then hsm else j
      computeDiffGo fuel os' [] (i + 1) j true hso' hsm' (cur ++ [.removed a]) acc
    | [], b :: ms' =>
      let hso' := if inHunk then hso else i
      let hsm' := if inHunk then hsm else j
      computeDiffGo fuel [] ms' i (j + 1) true hso' hsm' (cur ++ [.added b]) acc

/-- `compute_diff` (editor.rs:1451-1510). -/
def computeDiff (original modified : List RLine) : List Hunk :=
  computeDiffGo (original.length + modified.length + 1) original modified 0 0 false 0 0 [] []

/-- Removal loop of `apply_hunk_to_buffer` (editor.rs:1433-1437). -/
def removeOldLines : Nat → Nat → List RLine → List RLine
  | 0, _, buffer => buffer
  | k + 1, startLine, buffer =>
    removeOldLines k startLine
      (if startLine < buffer.length then buffer.eraseIdx startLine else buffer)

/-- Insertion loop of `apply_hunk_to_buffer` (editor.rs:1440-1448): each
Added/Context record is inserted at `start_line` plus its index among ALL
hunk records (Removed records included), clamped to the buffer length. -/
def insertHunkLines (startLine : Nat) : List (Nat × DiffLine) → List RLine → List RLine
  | [], buffer => buffer
  | (i, .added s) :: rest, buffer =>
    insertHunkLines startLine rest (buffer.insertIdx (min (startLine + i) buffer.length) s)
  | (i, .context s) :: rest, buffer =>
    insertHunkLines startLine rest (buffer.insertIdx (min (startLine + i) buffer.length) s)
  | (_, .removed _) :: rest, buffer => insertHunkLines startLine rest buffer

/-- `apply_hunk_to_buffer` (editor.rs:1431-1449). -/
def applyHunkToBuffer (buffer : List RLine) (hunk : Hunk) (startLine : Nat) : List RLine :=
  insertHunkLines startLine hunk.lines.enum (removeOldLines hunk.oldLines startLine buffer)

/-- Accepted-hunk reconstruction shared by `apply_diff_changes` and
`update_buffer_with_accepted_hunks` (editor.rs:1387-1429).  The source
casts `old_start as isize + line_offset` to `usize`; for hunks produced
by `compute_diff` the sum is never negative, so `Int.toNat` models it. -/
def applyAcceptedHunks (original : List RLine) (hunks : List Hunk) : List RLine :=
  ((hunks.filter (fun h => h.accepted)).foldl
    (fun st h =>
      (applyHunkToBuffer st.1 h (Int.toNat ((h.oldStart : Int) + st.2)),
       st.2 + (h.newLines : Int) - (h.oldLines : Int)))
    (original, (0 : Int))).1

/-- `get_hunks` (editor.rs:1292-1298). -/
def getHunks (e : Editor) : List Hunk :=
  match e.diffMode with
  | .active _ _ hunks _ _ => hunks
  | .inactive => []

/-- `update_buffer_with_accepted_hunks` (editor.rs:1417-1429). -/
def updateBufferWithAcceptedHunks (e : Editor) : Editor :=
  match e.diffMode with
  | .active orig _ hunks _ _ => { e with buffer := applyAcceptedHunks orig hunks }
  | .inactive => e

/-- `show_hunk` (editor.rs:1307-1315). -/
def showHunk (e : Editor) (hunkIndex : Nat) : Editor :=
  match e.diffMode with
  | .active orig md hunks _ aa =>
    if hunkIndex < hunks.length then
      updateBufferWithAcceptedHunks { e with diffMode := .active orig md hunks hunkIndex aa }
    else e
  | .inactive => e

/-- `start_diff_mode` (editor.rs:1265-1281). -/
def startDiffMode (e : Editor) (modifiedBuffer : List RLine) : Editor :=
  let originalBuffer := e.buffer
  let hunks := computeDiff originalBuffer modifiedBuffer
  let e1 := { e with diffMode := .active originalBuffer modifiedBuffer hunks 0 false }
  if getHunks e1 = [] then e1 else showHunk e1 0

/-- `accept_all_hunks` (editor.rs:1358-1366). -/
def acceptAllHunks (e : Editor) : Editor :=
  match e.diffMode with
  | .active orig md hunks cur _ =>
    updateBufferWithAcceptedHunks
      { e with diffMode := .active orig md (hunks.map (fun h => { h with accepted := true })) cur true }
  | .inactive => e

/-- `apply_diff_changes` (editor.rs:1387-1405). -/
def applyDiffChanges (e : Editor) : Editor × Bool :=
  match e.diffMode with
  | .active orig _ hunks _ _ =>
    ({ e with buffer := applyAcceptedHunks orig hunks, modified := true, diffMode := .inactive },
      true)
  | .inactive => (e, false)

/-- `cancel_diff_mode` (editor.rs:1407-1415). -/
def cancelDiffMode (e : Editor) : Editor × Bool :=
  match e.diffMode with
  | .active orig _ _ _ _ => ({ e with buffer := orig, diffMode := .inactive }, true)
  | .inactive => (e, false)

/-- Modelled from the spec's words for claim C9: the line "right-padded
with spaces to cover the range", i.e. padded until its display width
reaches the key range's end column.  Used only to compare the source's
`extract_sort_key` against the claimed padding semantics. -/
def specPadToCover (w : CharWidth) (line : RLine) (endCol : Nat) : RLine :=
  line ++ List.replicate (endCol - lineWidth w line) ' '

theorem utf8Len_nil : utf8Len [] = 0 := rfl

theorem utf8Len_cons (c : Char) (l : RLine) :
    utf8Len (c :: l) = c.utf8Size + utf8Len l := by
  simp [utf8Len]

theorem utf8Len_take_le (l : RLine) (k : Nat) : utf8Len (l.take k) ≤ utf8Len l := by
  induction l generalizing k with
  | nil => simp
  | cons c rest ih =>
    cases k with
    | zero => simp [utf8Len]
    | succ k => simpa [utf8Len_cons] using ih k

/-- The loop of `column_to_byte_index` always stops at the byte offset of
a character boundary of the remaining line: its result is `bi` plus the
byte length of a prefix of the remaining characters. -/
theorem columnToByteIndexGo_boundary (w : CharWidth) (column : Nat) (l : RLine) :
    ∀ cw bi, ∃ k, k ≤ l.length ∧
      columnToByteIndexGo w column l cw bi = bi + utf8Len (l.take k) := by
  induction l with
  | nil =>
    intro cw bi
    exact ⟨0, by simp, by simp [columnToByteIndexGo, utf8Len]⟩
  | cons c rest ih =>
    intro cw bi
    by_cases h : column ≤ cw
    · exact ⟨0, by simp, by simp [columnToByteIndexGo, h, utf8Len]⟩
    · obtain ⟨k, hk, hval⟩ := ih (cw + w c) (bi + c.utf8Size)
      refine ⟨k + 1, by simpa using hk, ?_⟩
      simp only [columnToByteIndexGo, if_neg h]
      rw [hval, List.take_succ_cons, utf8Len_cons]
      omega

/-- C10: for every line and column, `column_to_byte_index` returns a byte
offset that is at most the line's byte length and lies on a UTF-8
character boundary (it is the byte length of some character prefix of the
line), so the edits built on it never hit the out-of-bounds or
non-boundary panic branches of `remove`/`insert`/`replace_range`/slicing. -/
theorem C10_column_to_byte_index_safe (w : CharWidth) (line : RLine) (column : Nat) :
    columnToByteIndex w line column ≤ utf8Len line ∧
      ∃ k, k ≤ line.length ∧ columnToByteIndex w line column = utf8Len (line.take k) := by
  obtain ⟨k, hk, hval⟩ := columnToByteIndexGo_boundary w column line 0 0
  refine ⟨?_, ⟨k, hk, by simpa using hval⟩⟩
  have := utf8Len_take_le line k
  simp only [columnToByteIndex]
  omega

/-- C1: the claim that rebuilding with every hunk accepted yields exactly
the proposed buffer fails on the code.  On original `["c","a","d"]` and
proposed `["c","b","d"]` the single accepted hunk is applied by inserting
the Added line at `start_line` plus its index among all hunk records
(Removed records included), which lands it after the trailing context
line: the result is `["c","d","b"]`, not the proposed `["c","b","d"]`.
The second half of the claim (no hunk accepted reproduces the original)
does hold on this input, as the last conjunct shows. -/
theorem C1_accept_all_hunks_diverges_from_proposed :
    (applyDiffChanges (acceptAllHunks (startDiffMode
        (mkEditor true [strL "c", strL "a", strL "d"]) [strL "c", strL "b", strL "d"]))).1.buffer
      = [strL "c", strL "d", strL "b"] ∧
    [strL "c", strL "d", strL "b"] ≠ [strL "c", strL "b", strL "d"] ∧
    (applyDiffChanges (startDiffMode
        (mkEditor true [strL "c", strL "a", strL "d"]) [strL "c", strL "b", strL "d"])).1.buffer
      = [strL "c", strL "a", strL "d"] := by
  decide

/-- C2: the claim that a successful `undo()` followed by `redo()` restores
the pre-undo buffer fails on the code.  After typing `'b'` over the
one-line buffer `["a"]`, the history holds two copies of the pre-edit
snapshot `["a"]` and the post-edit buffer `["b"]` is never snapshotted,
so undo succeeds, redo succeeds, but redo restores `["a"]`, not the
pre-undo buffer `["b"]`. -/
theorem C2_redo_after_undo_loses_edit :
    (undo asciiW (typeChar asciiW (mkEditor true [strL "a"]) 'b')).2 = true ∧
    (redo asciiW (undo asciiW (typeChar asciiW (mkEditor true [strL "a"]) 'b')).1).2 = true ∧
    (typeChar asciiW (mkEditor true [strL "a"]) 'b').buffer = [strL "b"] ∧
    (redo asciiW (undo asciiW (typeChar asciiW (mkEditor true [strL "a"]) 'b')).1).1.buffer
      = [strL "a"] ∧
    [strL "a"] ≠ [strL "b"] := by
  decide

/-- C3 counterexample: `fill_selection` does not consult the `read_only`
flag.  With the flag set and a one-row Line selection it still overwrites
the line, so the claim that every listed mutating operation is a silent
no-op under `read_only` is false. -/
theorem C3_fill_selection_mutates_despite_read_only :
    ({ mkEditor true [strL "abc"] with
        readOnly := true
        selectionStart := some (0, 0)
        selectionEnd := some (0, 3)
        selectionMode := .line } : Editor).readOnly = true ∧
    (fillSelection asciiW
      { mkEditor true [strL "abc"] with
          readOnly := true
          selectionStart := some (0, 0)
          selectionEnd := some (0, 3)
          selectionMode := .line } 'x').buffer = [strL "xxx"] ∧
    [strL "xxx"] ≠ [strL "abc"] := by
  decide

/-- C4: the claim that every operation keeps the buffer non-empty fails on
the code.  Starting a diff session against an empty proposed buffer,
accepting all hunks and applying the changes leaves the buffer with zero
lines: `apply_diff_changes` never re-establishes the ≥ 1-line invariant
that `Editor::new` (and the help loader in ui.rs) guard. -/
theorem C4_apply_diff_changes_empties_buffer :
    (mkEditor true [strL "a"]).buffer.length = 1 ∧
    (applyDiffChanges (acceptAllHunks (startDiffMode (mkEditor true [strL "a"]) []))).1.buffer
      = [] := by
  decide

/-- C5 counterexample: `replace` calls `save_state` before it knows whether
any match exists, so a failed replace (non-empty target, no match) reports
failure and leaves the buffer unchanged but still pushes an undo-history
entry, contradicting the claim that no entry is pushed. -/
theorem C5_failed_replace_pushes_history :
    (replaceOp asciiW (mkEditor true [strL "a"]) (strL "x") (strL "y") .all true true).2
      = false ∧
    (replaceOp asciiW (mkEditor true [strL "a"]) (strL "x") (strL "y") .all true true).1.buffer
      = (mkEditor true [strL "a"]).buffer ∧
    ((replaceOp asciiW (mkEditor true [strL "a"]) (strL "x") (strL "y") .all true true).1.undoHistory).length
      = 2 ∧
    ((mkEditor true [strL "a"]).undoHistory).length = 1 := by
  decide

/-- C6: the claim that Line-scope `find` reports the first match of every
matching line fails on the code: the `break` in its scan exits the whole
buffer loop, so on `["ya","za"]` with target `"a"` only the first
matching line's match `(0,1,2)` is reported even though line 1 also
matches (last conjunct). -/
theorem C6_find_line_scope_single_match :
    (findOp asciiW (mkEditor true [strL "ya", strL "za"]) (strL "a") .line true).1.searchMatches
      = [(0, 1, 2)] ∧
    (findFirstMatchInLine (strL "a") true (strL "za")).isSome = true ∧
    [((0 : Nat), (1 : Nat), (2 : Nat))] ≠ [(0, 1, 2), (1, 1, 2)] := by
  decide

/-- C7 counterexample: `replace` with `replaceAll` and Block scope hands
off to `replace_all_instances`, which rewrites every occurrence in every
line of the buffer.  With only row 0, column 0 selected on
`["ab","ab"]`, replacing `"a"` by `"X"` also rewrites the unselected row
1, so the claim that text outside the rectangle is unchanged is false. -/
theorem C7_block_replace_all_escapes_selection :
    (replaceOp asciiW
      { mkEditor true [strL "ab", strL "ab"] with
          selectionStart := some (0, 0)
          selectionEnd := some (0, 0)
          selectionMode := .block } (strL "a") (strL "X") .block true true).2 = true ∧
    (replaceOp asciiW
      { mkEditor true [strL "ab", strL "ab"] with
          selectionStart := some (0, 0)
          selectionEnd := some (0, 0)
          selectionMode := .block } (strL "a") (strL "X") .block true true).1.buffer
      = [strL "Xb", strL "Xb"] ∧
    strL "Xb" ≠ strL "ab" := by
  decide

/-- C8 counterexample: on buffer `["Banana","apple"]`, case-insensitive
All-scope search for `"a"` produces four matches — the claimed list
`(0,1,2),(0,3,4),(1,0,1)` misses `(0,5,6)` ("Banana" contains three
`a`s). -/
theorem C8_search_example_has_four_matches :
    (findOp asciiW (mkEditor true [strL "Banana", strL "apple"]) (strL "a") .all false).1.searchMatches
      = [(0, 1, 2), (0, 3, 4), (0, 5, 6), (1, 0, 1)] ∧
    [((0 : Nat), (1 : Nat), (2 : Nat)), (0, 3, 4), (0, 5, 6), (1, 0, 1)] ≠
      [(0, 1, 2), (0, 3, 4), (1, 0, 1)] := by
  decide

/-- C8 amended: the same search produces exactly the four matches
`(0,1,2),(0,3,4),(0,5,6),(1,0,1)`, in this order. -/
theorem C8_search_example_matches :
    (findOp asciiW (mkEditor true [strL "Banana", strL "apple"]) (strL "a") .all false).1.searchMatches
      = [(0, 1, 2), (0, 3, 4), (0, 5, 6), (1, 0, 1)] := by
  decide

/-- C9 counterexample: the key `extract_sort_key` reads from a line is
not the key of the space-padded line.  For line `"a"` and key range
`(0,2)` the code extracts `"a"`, while the padded line `"a "` yields
`"a "`, so the claimed equality fails (the code truncates at the
content's end instead of padding with spaces). -/
theorem C9_sort_key_not_space_padded :
    extractSortKey asciiW (strL "a") 0 2 = strL "a" ∧
    specPadToCover asciiW (strL "a") 2 = strL "a " ∧
    extractSortKey asciiW (specPadToCover asciiW (strL "a") 2) 0 2 = strL "a " ∧
    strL "a" ≠ strL "a " := by
  decide

theorem finishFind_frame (e : Editor) :
    (finishFind e).1.buffer = e.buffer ∧ (finishFind e).1.undoHistory = e.undoHistory := by
  unfold finishFind moveToMatch
  split
  · exact ⟨rfl, rfl⟩
  · split
    · exact ⟨rfl, rfl⟩
    · exact ⟨rfl, rfl⟩

theorem findOp_frame (w : CharWidth) (e : Editor) (t : RLine) (scope : SearchScope)
    (cs : Bool) :
    (findOp w e t scope cs).1.buffer = e.buffer ∧
    (findOp w e t scope cs).1.undoHistory = e.undoHistory := by
  unfold findOp
  split
  · exact ⟨rfl, rfl⟩
  · split
    · exact finishFind_frame _
    · exact finishFind_frame _
    · dsimp only
      split
      · exact finishFind_frame _
      · exact ⟨rfl, rfl⟩

theorem sortBlock_no_selection (w : CharWidth) (e : Editor) (specs : List (Nat × Nat × Bool))
    (h : e.selectionStart = none ∨ e.selectionEnd = none) :
    sortBlock w e specs = (e, false) := by
  unfold sortBlock
  cases hs : e.selectionStart with
  | none => rfl
  | some s =>
    cases hn : e.selectionEnd with
    | none => rfl
    | some en => rcases h with h | h <;> simp_all

theorem replaceCont_false_frame (w : CharWidth) (e : Editor) (ft rp : RLine) (ra cs : Bool)
    (h : (replaceCont w e ft rp ra cs).2 = false) :
    (replaceCont w e ft rp ra cs).1 = e := by
  by_cases hm : e.searchMatches = []
  · simp [replaceCont, hm]
  · exfalso
    cases ra <;> simp [replaceCont, hm] at h

theorem replaceOp_false_frame (w : CharWidth) (e : Editor) (ft rp : RLine)
    (scope : SearchScope) (ra cs : Bool) (hne : ft ≠ [])
    (h : (replaceOp w e ft rp scope ra cs).2 = false) :
    (replaceOp w e ft rp scope ra cs).1.buffer = e.buffer ∧
    (replaceOp w e ft rp scope ra cs).1.undoHistory = (saveState e).undoHistory := by
  unfold replaceOp at h ⊢
  rw [if_neg hne] at h ⊢
  cases scope with
  | all =>
    have hf := replaceCont_false_frame _ _ _ _ _ _ h
    rw [hf]
    exact ⟨rfl, rfl⟩
  | line =>
    have hf := replaceCont_false_frame _ _ _ _ _ _ h
    rw [hf]
    exact ⟨rfl, rfl⟩
  | block =>
    dsimp only [saveState] at h ⊢
    cases hss : e.selectionStart with
    | none => exact ⟨rfl, rfl⟩
    | some s =>
      cases hse : e.selectionEnd with
      | none => exact ⟨rfl, rfl⟩
      | some en =>
        rw [hss, hse] at h
        dsimp only at h ⊢
        have hf := replaceCont_false_frame _ _ _ _ _ _ h
        rw [hf]
        exact ⟨rfl, rfl⟩

theorem replaceOp_empty_target (w : CharWidth) (e : Editor) (rp : RLine)
    (scope : SearchScope) (ra cs : Bool) :
    replaceOp w e [] rp scope ra cs = (e, false) := by
  simp [replaceOp]

/-- C5 amended: when a user-input failure is reported the buffer is always
unchanged, and `find` and `sortBlock` push nothing onto the undo history;
but `replace` with a non-empty target pushes one spurious snapshot (the
`saveState` of the current state) before discovering the failure.  Only
the empty-target failure of `replace` leaves the editor fully untouched. -/
theorem C5_user_input_failure_frame (w : CharWidth) (e : Editor) (t rp : RLine)
    (scope : SearchScope) (ra cs : Bool) (specs : List (Nat × Nat × Bool)) :
    ((findOp w e t scope cs).1.buffer = e.buffer ∧
      (findOp w e t scope cs).1.undoHistory = e.undoHistory) ∧
    (e.selectionStart = none ∨ e.selectionEnd = none → sortBlock w e specs = (e, false)) ∧
    (t = [] → replaceOp w e t rp scope ra cs = (e, false)) ∧
    (t ≠ [] → (replaceOp w e t rp scope ra cs).2 = false →
      (replaceOp w e t rp scope ra cs).1.buffer = e.buffer ∧
      (replaceOp w e t rp scope ra cs).1.undoHistory = (saveState e).undoHistory) := by
  refine ⟨findOp_frame w e t scope cs, sortBlock_no_selection w e specs, ?_, ?_⟩
  · intro ht
    rw [ht]
    exact replaceOp_empty_target w e rp scope ra cs
  · intro hne h
    exact replaceOp_false_frame w e t rp scope ra cs hne h

theorem C5_user_input_failure_frame_witness :
    ((findOp asciiW (mkEditor true [strL "a"]) (strL "x") .all true).1.buffer
        = (mkEditor true [strL "a"]).buffer) ∧
    sortBlock asciiW (mkEditor true [strL "a"]) [] = (mkEditor true [strL "a"], false) ∧
    ((replaceOp asciiW (mkEditor true [strL "a"]) (strL "x") (strL "y") .all true true).1.buffer
        = (mkEditor true [strL "a"]).buffer ∧
      (replaceOp asciiW (mkEditor true [strL "a"]) (strL "x") (strL "y") .all true true).1.undoHistory
        = (saveState (mkEditor true [strL "a"])).undoHistory) :=
  ⟨(C5_user_input_failure_frame asciiW (mkEditor true [strL "a"]) (strL "x") (strL "y")
      .all true true []).1.1,
   (C5_user_input_failure_frame asciiW (mkEditor true [strL "a"]) (strL "x") (strL "y")
      .all true true []).2.1 (Or.inl (by decide)),
   (C5_user_input_failure_frame asciiW (mkEditor true [strL "a"]) (strL "x") (strL "y")
      .all true true []).2.2.2 (by decide) (by decide)⟩

theorem replaceCont_true_all_buffer (w : CharWidth) (e : Editor) (ft rp : RLine) (cs : Bool)
    (h : (replaceCont w e ft rp true cs).2 = true) :
    (replaceCont w e ft rp true cs).1.buffer = e.buffer.map (replaceAllLine w ft rp cs) := by
  by_cases hm : e.searchMatches = []
  · exfalso
    simp [replaceCont, hm] at h
  · simp [replaceCont, hm, replaceAllInstances]

/-- C7 amended: `replace` with `replaceAll` and Block scope only uses the
selection to decide whether any in-rectangle match exists; when it
proceeds, it hands off to `replace_all_instances`, which rewrites every
occurrence in every line of the whole buffer — text outside the selected
rectangle included. -/
theorem C7_replace_all_block_rewrites_whole_buffer (w : CharWidth) (e : Editor)
    (t rp : RLine) (cs : Bool)
    (h : (replaceOp w e t rp .block true cs).2 = true) :
    (replaceOp w e t rp .block true cs).1.buffer
      = e.buffer.map (replaceAllLine w t rp cs) := by
  by_cases ht : t = []
  · rw [ht, replaceOp_empty_target] at h
    exact Bool.noConfusion (show false = true from h)
  · unfold replaceOp at h ⊢
    rw [if_neg ht] at h ⊢
    dsimp only [saveState] at h ⊢
    cases hss : e.selectionStart with
    | none =>
      rw [hss] at h
      exact Bool.noConfusion (show false = true from h)
    | some s =>
      cases hse : e.selectionEnd with
      | none =>
        rw [hss, hse] at h
        exact Bool.noConfusion (show false = true from h)
      | some en =>
        rw [hss, hse] at h
        dsimp only at h ⊢
        exact replaceCont_true_all_buffer _ _ _ _ _ h

theorem C7_replace_all_block_rewrites_whole_buffer_witness :
    (replaceOp asciiW
      { mkEditor true [strL "ab", strL "ab"] with
          selectionStart := some (0, 0)
          selectionEnd := some (0, 0)
          selectionMode := .block } (strL "a") (strL "X") .block true true).2 = true ∧
    (replaceOp asciiW
      { mkEditor true [strL "ab", strL "ab"] with
          selectionStart := some (0, 0)
          selectionEnd := some (0, 0)
          selectionMode := .block } (strL "a") (strL "X") .block true true).1.buffer
      = ({ mkEditor true [strL "ab", strL "ab"] with
          selectionStart := some (0, 0)
          selectionEnd := some (0, 0)
          selectionMode := .block } : Editor).buffer.map
          (replaceAllLine asciiW (strL "a") (strL "X") true) :=
  ⟨by decide,
   C7_replace_all_block_rewrites_whole_buffer asciiW
     { mkEditor true [strL "ab", strL "ab"] with
         selectionStart := some (0, 0)
         selectionEnd := some (0, 0)
         selectionMode := .block } (strL "a") (strL "X") true (by decide)⟩

theorem widthOne_lineWidth (w : CharWidth) (l : RLine) (hw : ∀ c ∈ l, w c = 1) :
    lineWidth w l = l.length := by
  induction l with
  | nil => rfl
  | cons c rest ih =>
    have h1 : w c = 1 := hw c (by simp)
    have h2 := ih (fun x hx => hw x (by simp [hx]))
    simp only [lineWidth, List.map_cons, List.sum_cons, List.length_cons] at h2 ⊢
    omega

theorem columnToByteIndexGo_widthOne (w : CharWidth) (l : RLine) (hw : ∀ c ∈ l, w c = 1) :
    ∀ col cw bi, columnToByteIndexGo w col l cw bi = bi + utf8Len (l.take (col - cw)) := by
  induction l with
  | nil =>
    intro col cw bi
    simp [columnToByteIndexGo, utf8Len]
  | cons c rest ih =>
    intro col cw bi
    by_cases h : col ≤ cw
    · have h0 : col - cw = 0 := by omega
      simp [columnToByteIndexGo, h, h0, utf8Len]
    · have h1 : w c = 1 := hw c (by simp)
      have h2 := ih (fun x hx => hw x (by simp [hx])) col (cw + w c) (bi + c.utf8Size)
      have hcc : col - cw = (col - (cw + w c)) + 1 := by rw [h1]; omega
      calc columnToByteIndexGo w col (c :: rest) cw bi
          = columnToByteIndexGo w col rest (cw + w c) (bi + c.utf8Size) := by
            simp only [columnToByteIndexGo, if_neg h]
        _ = bi + c.utf8Size + utf8Len (rest.take (col - (cw + w c))) := h2
        _ = bi + utf8Len ((c :: rest).take (col - cw)) := by
            rw [hcc, List.take_succ_cons, utf8Len_cons]
            omega

theorem columnToByteIndex_widthOne (w : CharWidth) (l : RLine) (hw : ∀ c ∈ l, w c = 1)
    (k : Nat) : columnToByteIndex w l k = utf8Len (l.take k) := by
  simpa using columnToByteIndexGo_widthOne w l hw k 0 0

theorem byteToCharIdx_take (l : RLine) (k : Nat) :
    byteToCharIdx l (utf8Len (l.take k)) = min k l.length := by
  induction l generalizing k with
  | nil => simp [byteToCharIdx]
  | cons c rest ih =>
    cases k with
    | zero =>
      have hpos := Char.utf8Size_pos c
      simp [byteToCharIdx, utf8Len, hpos]
    | succ k =>
      have hpos := Char.utf8Size_pos c
      simp only [List.take_succ_cons, utf8Len_cons, byteToCharIdx]
      rw [if_neg (by omega)]
      have hsub : c.utf8Size + utf8Len (List.take k rest) - c.utf8Size
          = utf8Len (List.take k rest) := by omega
      rw [hsub, ih]
      simp only [List.length_cons]
      omega

theorem utf8Len_take_lt (l : RLine) (k : Nat) (h : k < l.length) :
    utf8Len (l.take k) < utf8Len l := by
  induction l generalizing k with
  | nil => simp at h
  | cons c rest ih =>
    cases k with
    | zero =>
      have hpos := Char.utf8Size_pos c
      have : (0:Nat) ≤ utf8Len rest := Nat.zero_le _
      simp only [List.take_zero, utf8Len_nil, utf8Len_cons]
      omega
    | succ k =>
      have hk := ih k (by simpa using h)
      simp only [List.take_succ_cons, utf8Len_cons]
      omega

theorem extractSortKey_widthOne (w : CharWidth) (l : RLine) (s e : Nat)
    (hw : ∀ c ∈ l, w c = 1) (hs : s ≤ l.length) :
    extractSortKey w l s e = (l.take (min e l.length)).drop s := by
  have hlw : lineWidth w l = l.length := widthOne_lineWidth w l hw
  have h1 : ¬ (lineWidth w l < s) := by omega
  simp only [extractSortKey, if_neg h1]
  by_cases h2 : lineWidth w l ≤ s
  · rw [if_pos h2]
    have hls : l.length ≤ s := by omega
    rw [eq_comm, List.drop_eq_nil_iff]
    exact le_trans (le_trans (List.length_take_le _ _) (Nat.min_le_right _ _)) hls
  · rw [if_neg h2]
    have hslt : s < l.length := by omega
    have hmin : min e (lineWidth w l) = min e l.length := by rw [hlw]
    rw [columnToByteIndex_widthOne w l hw s, hmin, columnToByteIndex_widthOne w l hw (min e l.length)]
    rw [if_pos (utf8Len_take_lt l s hslt)]
    simp only [byteSlice, byteToCharIdx_take]
    have hm1 : min (min e l.length) l.length = min e l.length := by omega
    have hm2 : min s l.length = s := by omega
    rw [hm1, hm2]

/-- C9 amended: key extraction is total, but for a key range reaching past
the line's content the key is truncated at the content's end instead of
space-padded: for startCol within the line, the extracted key is a prefix
of the key the space-padded line would give (the padded key extends it by
the missing spaces). -/
theorem C9_sort_key_is_content_truncation (w : CharWidth) (line : RLine) (s e : Nat)
    (hw : ∀ c ∈ line, w c = 1) (hsp : w ' ' = 1) (hs : s ≤ line.length) :
    ∃ t, extractSortKey w line s e ++ t = extractSortKey w (specPadToCover w line e) s e := by
  have hlw : lineWidth w line = line.length := widthOne_lineWidth w line hw
  by_cases he : e ≤ line.length
  · refine ⟨[], ?_⟩
    have hp : specPadToCover w line e = line := by
      simp [specPadToCover, hlw, Nat.sub_eq_zero_of_le he]
    rw [hp, List.append_nil]
  · push_neg at he
    have hwp : ∀ c ∈ specPadToCover w line e, w c = 1 := by
      intro c hc
      rcases List.mem_append.mp hc with h | h
      · exact hw c h
      · rw [List.eq_of_mem_replicate h]
        exact hsp
    have hplen : (specPadToCover w line e).length = e := by
      simp only [specPadToCover, List.length_append, List.length_replicate, hlw]
      omega
    have hk1 : extractSortKey w line s e = line.drop s := by
      rw [extractSortKey_widthOne w line s e hw hs]
      have hm : min e line.length = line.length := by omega
      rw [hm, List.take_length]
    have hk2 : extractSortKey w (specPadToCover w line e) s e
        = line.drop s ++ List.replicate (e - line.length) ' ' := by
      rw [extractSortKey_widthOne w (specPadToCover w line e) s e hwp (by rw [hplen]; omega)]
      have hm : min e (specPadToCover w line e).length = (specPadToCover w line e).length := by
        omega
      rw [hm, List.take_length]
      simp only [specPadToCover, List.drop_append_eq_append_drop]
      have hz : s - line.length = 0 := by omega
      rw [hz, List.drop_zero, hlw]
    exact ⟨List.replicate (e - line.length) ' ', by rw [hk1, hk2]⟩

theorem C9_sort_key_is_content_truncation_witness :
    (∀ c ∈ strL "ab", asciiW c = 1) ∧ asciiW ' ' = 1 ∧ 1 ≤ (strL "ab").length ∧
    ∃ t, extractSortKey asciiW (strL "ab") 1 4 ++ t
        = extractSortKey asciiW (specPadToCover asciiW (strL "ab") 4) 1 4 :=
  ⟨by decide, by decide, by decide,
   C9_sort_key_is_content_truncation asciiW (strL "ab") 1 4 (by decide) (by decide) (by decide)⟩

theorem moveToMatch_buffer (e : Editor) (i : Nat) : (moveToMatch e i).buffer = e.buffer := by
  unfold moveToMatch
  split <;> rfl

theorem moveBlockLeft_readOnly (w : CharWidth) (e : Editor) (b : Bool) :
    (moveBlockLeft w { e with readOnly := b }).buffer = (moveBlockLeft w e).buffer := by
  cases hs : e.selectionStart <;> cases hn : e.selectionEnd <;>
    simp [moveBlockLeft, saveState, hs, hn]

theorem moveBlockRight_readOnly (w : CharWidth) (e : Editor) (b : Bool) :
    (moveBlockRight w { e with readOnly := b }).buffer = (moveBlockRight w e).buffer := by
  cases hs : e.selectionStart <;> cases hn : e.selectionEnd <;>
    simp [moveBlockRight, saveState, hs, hn]

theorem sortAll_readOnly (w : CharWidth) (e : Editor) (specs : List (Nat × Nat × Bool))
    (b : Bool) :
    (sortAll w { e with readOnly := b } specs).1.buffer = (sortAll w e specs).1.buffer ∧
    (sortAll w { e with readOnly := b } specs).2 = (sortAll w e specs).2 := by
  by_cases hb : e.buffer = [] <;> simp [sortAll, saveState, hb]

theorem sortBlock_readOnly (w : CharWidth) (e : Editor) (specs : List (Nat × Nat × Bool))
    (b : Bool) :
    (sortBlock w { e with readOnly := b } specs).1.buffer = (sortBlock w e specs).1.buffer ∧
    (sortBlock w { e with readOnly := b } specs).2 = (sortBlock w e specs).2 := by
  cases hs : e.selectionStart <;> cases hn : e.selectionEnd <;>
    cases hm : e.selectionMode <;>
      simp [sortBlock, saveState, hs, hn, hm]

theorem replaceCont_congr (w : CharWidth) (e1 e2 : Editor) (ft rp : RLine) (ra cs : Bool)
    (hb : e1.buffer = e2.buffer) (hm : e1.searchMatches = e2.searchMatches) :
    (replaceCont w e1 ft rp ra cs).1.buffer = (replaceCont w e2 ft rp ra cs).1.buffer ∧
    (replaceCont w e1 ft rp ra cs).2 = (replaceCont w e2 ft rp ra cs).2 := by
  by_cases h : e2.searchMatches = []
  · simp [replaceCont, hm, h, hb]
  · by_cases hra : ra <;>
      simp [replaceCont, hm, h, hb, hra, replaceAllInstances, moveToMatch, apply_ite]

theorem replaceOp_readOnly (w : CharWidth) (e : Editor) (t rp : RLine)
    (scope : SearchScope) (ra cs : Bool) (b : Bool) :
    (replaceOp w { e with readOnly := b } t rp scope ra cs).1.buffer
      = (replaceOp w e t rp scope ra cs).1.buffer ∧
    (replaceOp w { e with readOnly := b } t rp scope ra cs).2
      = (replaceOp w e t rp scope ra cs).2 := by
  by_cases ht : t = []
  · simp [replaceOp, ht]
  · unfold replaceOp
    simp only [if_neg ht]
    cases scope with
    | all =>
      dsimp only [saveState]
      exact replaceCont_congr w _ _ t rp ra cs rfl rfl
    | line =>
      dsimp only [saveState]
      exact replaceCont_congr w _ _ t rp ra cs rfl rfl
    | block =>
      dsimp only [saveState]
      cases hs : e.selectionStart with
      | none => exact ⟨rfl, rfl⟩
      | some s =>
        cases hn : e.selectionEnd with
        | none => exact ⟨rfl, rfl⟩
        | some en => exact replaceCont_congr w _ _ t rp ra cs rfl rfl

theorem finishTail_congr (e1 e2 : Editor) (i j : Nat)
    (hb : e1.buffer = e2.buffer) (hm : e1.searchMatches = e2.searchMatches) :
    (if e1.searchMatches = [] then e1 else moveToMatch e1 i).buffer
      = (if e2.searchMatches = [] then e2 else moveToMatch e2 j).buffer := by
  by_cases h : e2.searchMatches = [] <;>
    simp [hm, h, hb, moveToMatch_buffer]

theorem replaceNext_readOnly (w : CharWidth) (e : Editor) (b : Bool) :
    (replaceNext w { e with readOnly := b }).1.buffer = (replaceNext w e).1.buffer ∧
    (replaceNext w { e with readOnly := b }).2 = (replaceNext w e).2 := by
  unfold replaceNext
  dsimp only
  by_cases hg : e.searchMatches = [] ∨ e.replaceText = none
  · simp only [if_pos hg]
    exact ⟨by trivial, by trivial⟩
  · simp only [if_neg hg]
    refine ⟨?_, by trivial⟩
    cases hrt : e.replaceText with
    | none => rfl
    | some rt =>
      dsimp only [performReplace]
      cases hsc : e.searchScope with
      | all => exact finishTail_congr _ _ _ _ rfl rfl
      | line => exact finishTail_congr _ _ _ _ rfl rfl
      | block =>
        cases hss : e.selectionStart with
        | none => exact finishTail_congr _ _ _ _ rfl rfl
        | some s =>
          cases hse : e.selectionEnd with
          | none => exact finishTail_congr _ _ _ _ rfl rfl
          | some en => exact finishTail_congr _ _ _ _ rfl rfl

/-- C3 amended: of the claimed operations only `typeChar`, `deleteChar`,
`backspace` and `insertNewline` check `read_only` — for those the flag
makes the call a complete no-op.  `fillSelection`, `moveBlockLeft`,
`moveBlockRight`, `sortAll`, `sortBlock`, `replace` and `replaceNext`
never read the flag: each produces exactly the buffer (and, where it
returns one, the success result) it would produce with the flag clear,
so with `read_only` set they still mutate. -/
theorem C3_read_only_checked_ops_noop (w : CharWidth) (e : Editor) (c : Char)
    (t rp : RLine) (scope : SearchScope) (ra cs : Bool) (specs : List (Nat × Nat × Bool))
    (h : e.readOnly = true) :
    typeChar w e c = e ∧ deleteChar w e = e ∧ backspace w e = e ∧
    insertNewline w e = e ∧
    (fillSelection w e c).buffer = (fillSelection w { e with readOnly := false } c).buffer ∧
    (moveBlockLeft w e).buffer = (moveBlockLeft w { e with readOnly := false }).buffer ∧
    (moveBlockRight w e).buffer = (moveBlockRight w { e with readOnly := false }).buffer ∧
    (sortAll w e specs).1.buffer = (sortAll w { e with readOnly := false } specs).1.buffer ∧
    (sortAll w e specs).2 = (sortAll w { e with readOnly := false } specs).2 ∧
    (sortBlock w e specs).1.buffer = (sortBlock w { e with readOnly := false } specs).1.buffer ∧
    (sortBlock w e specs).2 = (sortBlock w { e with readOnly := false } specs).2 ∧
    (replaceOp w e t rp scope ra cs).1.buffer
      = (replaceOp w { e with readOnly := false } t rp scope ra cs).1.buffer ∧
    (replaceOp w e t rp scope ra cs).2
      = (replaceOp w { e with readOnly := false } t rp scope ra cs).2 ∧
    (replaceNext w e).1.buffer = (replaceNext w { e with readOnly := false }).1.buffer ∧
    (replaceNext w e).2 = (replaceNext w { e with readOnly := false }).2 := by
  refine ⟨?_, ?_, ?_, ?_, ?_,
    (moveBlockLeft_readOnly w e false).symm, (moveBlockRight_readOnly w e false).symm,
    (sortAll_readOnly w e specs false).1.symm, (sortAll_readOnly w e specs false).2.symm,
    (sortBlock_readOnly w e specs false).1.symm, (sortBlock_readOnly w e specs false).2.symm,
    (replaceOp_readOnly w e t rp scope ra cs false).1.symm,
    (replaceOp_readOnly w e t rp scope ra cs false).2.symm,
    (replaceNext_readOnly w e false).1.symm, (replaceNext_readOnly w e false).2.symm⟩
  · simp [typeChar, h]
  · simp [deleteChar, h]
  · simp [backspace, h]
  · simp [insertNewline, h]
  · cases hs : e.selectionStart <;> cases hn : e.selectionEnd <;>
      cases hm : e.selectionMode <;>
        simp [fillSelection, saveState, deselect, hs, hn, hm]

theorem C3_read_only_checked_ops_noop_witness :
    ({ mkEditor true [strL "hi"] with readOnly := true } : Editor).readOnly = true ∧
    typeChar asciiW { mkEditor true [strL "hi"] with readOnly := true } 'q'
      = { mkEditor true [strL "hi"] with readOnly := true } ∧
    deleteChar asciiW { mkEditor true [strL "hi"] with readOnly := true }
      = { mkEditor true [strL "hi"] with readOnly := true } ∧
    (sortAll asciiW { mkEditor true [strL "hi"] with readOnly := true } [(0, 1, true)]).1.buffer
      = (sortAll asciiW
          { ({ mkEditor true [strL "hi"] with readOnly := true } : Editor) with
              readOnly := false } [(0, 1, true)]).1.buffer ∧
    (replaceNext asciiW { mkEditor true [strL "hi"] with readOnly := true }).2
      = (replaceNext asciiW
          { ({ mkEditor true [strL "hi"] with readOnly := true } : Editor) with
              readOnly := false }).2 := by
  obtain ⟨h1, h2, h3, h4, h5, h6, h7, h8, h9, h10, h11, h12, h13, h14, h15⟩ :=
    C3_read_only_checked_ops_noop asciiW
      { mkEditor true [strL "hi"] with readOnly := true } 'q' (strL "h") (strL "z")
      .all true true [(0, 1, true)] (by decide)
  exact ⟨by decide, h1, h2, h8, h15⟩

end VEdit